import Mathlib

/-!
Verification of the cvExtract heuristic résumé-extraction engine.

This file shallowly embeds the extraction routines of `cv_parser.py`,
`cv_parser_docling.py` and `cv_parser_llm.py` into Lean 4 and settles the
frozen claims about them.

Conventions of the embedding:
* Python strings are modelled as `List Char`; public entry points take and
  return `String`s (converted via `String.data` / `String.mk`).  Python
  `str.strip`, `str.lower`, `len` and slicing operate on characters, exactly
  as the `List Char` model does.  `str.lower`/`str.upper` are modelled
  ASCII-only (the inputs exercised by the theorems are ASCII).
* Python `re` patterns are embedded through a small backtracking matcher
  (`mrun`) over an explicit syntax `RE`.  Unbounded repetition `a*` / `a+`
  is expanded to a bounded alternation whose bound is the length of the
  subject string; since every repeated sub-pattern of the embedded regexes
  consumes at least one character, this expansion is exact.
* Stateful scanning loops of the Python source become structural or fuel
  recursion; the fuel of `expLoop` is `lines.length + 1`, which is exact
  because the Python loop index strictly increases each iteration.
-/

namespace CvExtract

/-! ## Character and list-of-char utilities (Python string semantics) -/

/-- Python whitespace test (`\s`, `str.strip`), ASCII subset. -/
def chWS (c : Char) : Bool :=
  c = ' ' || c = '\t' || c = '\n' || c = '\r' || c = '\x0b' || c = '\x0c'

/-- ASCII lower-casing, Python `str.lower` on ASCII input. -/
def chLow (c : Char) : Char := c.toLower

/-- ASCII upper-casing, Python `str.upper` on ASCII input. -/
def chUp (c : Char) : Char := c.toUpper

def lowerL (cs : List Char) : List Char := cs.map chLow

def upperL (cs : List Char) : List Char := cs.map chUp

/-- Python `str.lstrip()` restricted to a character set `p`. -/
def dropWhileP (p : Char → Bool) : List Char → List Char
  | [] => []
  | c :: cs => if p c then dropWhileP p cs else c :: cs

/-- Python `str.strip()`. -/
def trimL (cs : List Char) : List Char :=
  ((dropWhileP chWS ((dropWhileP chWS cs.reverse)).reverse))

/-- Python `sep in s` / `str.startswith` building block: prefix test. -/
def isPfxOf : List Char → List Char → Bool
  | [], _ => true
  | _ :: _, [] => false
  | p :: ps, c :: cs => p = c && isPfxOf ps cs

/-- Python `sub in s` (substring containment). -/
def containsL (hay pat : List Char) : Bool :=
  match hay with
  | [] => isPfxOf pat []
  | _ :: rest => isPfxOf pat hay || containsL rest pat

/-- Case-insensitive substring containment (used for `re.IGNORECASE` literal
alternation searches such as the role-keyword tests). -/
def containsCIL (hay pat : List Char) : Bool :=
  containsL (lowerL hay) (lowerL pat)

/-- Python `str.endswith`. -/
def endsWithL (cs pat : List Char) : Bool :=
  isPfxOf pat.reverse cs.reverse

/-- Python `str.count(ch)`. -/
def countCh (cs : List Char) (ch : Char) : Nat :=
  cs.countP (fun c => c = ch)

/-- Python `str.split(None)` word count: number of maximal nonblank runs. -/
def wordsOf (cs : List Char) : List (List Char) :=
  (cs.splitOnP (fun c => chWS c)).filter (fun w => w ≠ [])

/-- Python `str.split(sep)` for a one-character class separator: keeps empty
pieces, exactly like `re.split` over a character class. -/
def splitBy (p : Char → Bool) : List Char → List (List Char)
  | [] => [[]]
  | c :: cs =>
    if p c then [] :: splitBy p cs
    else match splitBy p cs with
      | [] => [[c]]
      | w :: ws => (c :: w) :: ws

/-- Python `s.replace(pat, '')` — removes every non-overlapping occurrence,
scanning left to right.  (The fuel is the input length: every step consumes
at least one character, so `removeAll` below never exhausts it.) -/
def removeAllF (pat : List Char) : Nat → List Char → List Char
  | 0, cs => cs
  | _ + 1, [] => []
  | f + 1, c :: cs =>
    if isPfxOf pat (c :: cs) && !(pat.isEmpty) then
      removeAllF pat f ((c :: cs).drop pat.length)
    else
      c :: removeAllF pat f cs

def removeAll (pat cs : List Char) : List Char := removeAllF pat cs.length cs

/-! ## A small backtracking regex matcher

`RE` is the abstract syntax of the fragment of Python `re` used by the
sources; `mrun` is a continuation-passing backtracking matcher that explores
alternatives in exactly Python's preference order (left alternative first,
which encodes greedy repetition when the repeat is expanded with the
"consume" branch first and lazy repetition with the "stop" branch first).
The matcher tracks the previously consumed character so that `\b` word
boundaries can be decided. -/

inductive RE where
  | eps : RE
  | cls (p : Char → Bool) : RE
  | lit (s : List Char) (ci : Bool) : RE
  | seq (a b : RE) : RE
  | alt (a b : RE) : RE
  | look (a : RE) : RE
  | eos : RE
  | bnd : RE

/-- Python `\w` (ASCII subset). -/
def isWordCh (c : Char) : Bool := c.isAlphanum || c = '_'

/-- Consume a literal (case-insensitively if `ci`), returning the new
previous-character and the rest. -/
def dropLitAux : List Char → Bool → Option Char → List Char →
    Option (Option Char × List Char)
  | [], _, prev, cs => some (prev, cs)
  | p :: ps, ci, prev, c :: cs =>
    if (if ci then chLow p = chLow c else p = c) then
      dropLitAux ps ci (some c) cs
    else none
  | _ :: _, _, _, [] => none

/-- The backtracking matcher.  `k` is the success continuation receiving the
previous character and the remaining input; returning `none` from `k` forces
further backtracking, so the first overall success respects Python's
preference order. -/
def mrun : RE → {σ : Type} → Option Char → List Char →
    (Option Char → List Char → Option σ) → Option σ
  | .eps, _, prev, cs, k => k prev cs
  | .cls p, _, prev, cs, k =>
    match cs with
    | [] => none
    | c :: rest => if p c then k (some c) rest else none
  | .lit s ci, _, prev, cs, k =>
    match dropLitAux s ci prev cs with
    | some (p2, rest) => k p2 rest
    | none => none
  | .seq a b, _, prev, cs, k =>
    mrun a prev cs (fun p2 r => mrun b p2 r k)
  | .alt a b, _, prev, cs, k =>
    (mrun a prev cs k) <|> (mrun b prev cs k)
  | .look a, _, prev, cs, k =>
    match mrun a (σ := Unit) prev cs (fun _ _ => some ()) with
    | some _ => k prev cs
    | none => none
  | .eos, _, prev, cs, k =>
    if cs = [] || cs = ['\n'] then k prev cs else none
  | .bnd, _, prev, cs, k =>
    let wPrev := match prev with | some c => isWordCh c | none => false
    let wNext := match cs with | c :: _ => isWordCh c | [] => false
    if wPrev ≠ wNext then k prev cs else none

/-- Greedy `a?`. -/
def reOpt (a : RE) : RE := .alt a .eps

/-- Greedy bounded repetition `a{0,n}`. -/
def reRepN (a : RE) : Nat → RE
  | 0 => .eps
  | n + 1 => .alt (.seq a (reRepN a n)) .eps

/-- Lazy bounded repetition `a{0,n}?`. -/
def reRepNL (a : RE) : Nat → RE
  | 0 => .eps
  | n + 1 => .alt .eps (.seq a (reRepNL a n))

/-- Greedy `a{1,n+1}` (stands for `a+` when `n` bounds the subject length). -/
def rePlus (a : RE) (n : Nat) : RE := .seq a (reRepN a n)

/-- Lazy `a{1,n+1}?` (stands for `a+?`). -/
def rePlusL (a : RE) (n : Nat) : RE := .seq a (reRepNL a n)

/-- Exact repetition `a{n}`. -/
def reTimes (a : RE) : Nat → RE
  | 0 => .eps
  | n + 1 => .seq a (reTimes a n)

def reStr (s : String) : RE := .lit s.data false

def reStrCI (s : String) : RE := .lit s.data true

/-- Ordered alternation of a list of alternatives (left first). -/
def reAlts : List RE → RE
  | [] => .cls (fun _ => false)
  | [r] => r
  | r :: rs => .alt r (reAlts rs)

/-- Attempt a `pre ++ group ++ post` match at the start of `cs`; on success
return `(after-pre, after-group, after-post)` suffixes. -/
def reTryG (pre body post : RE) (prev : Option Char) (cs : List Char) :
    Option (List Char × List Char × List Char) :=
  mrun pre prev cs (fun p1 r1 =>
    mrun body p1 r1 (fun p2 r2 =>
      mrun post p2 r2 (fun _ r3 => some (r1, r2, r3))))

/-- Leftmost search (Python `re.search`): slide the start position left to
right, keeping track of the previously consumed character for `\b`. -/
def reSearchG (pre body post : RE) :
    Option Char → List Char → Option (List Char × List Char × List Char × List Char)
  | prev, [] =>
    match reTryG pre body post prev [] with
    | some (r1, r2, r3) => some ([], r1, r2, r3)
    | none => none
  | prev, c :: rest =>
    match reTryG pre body post prev (c :: rest) with
    | some (r1, r2, r3) => some (c :: rest, r1, r2, r3)
    | none => reSearchG pre body post (some c) rest

/-- Characters consumed between two suffix states. -/
def takeDiff (a b : List Char) : List Char := a.take (a.length - b.length)

/-- First match of `re` in `cs` (whole-match text), Python
`re.search(...).group(0)`. -/
def reFind (re : RE) (cs : List Char) : Option (List Char) :=
  match reSearchG .eps re .eps none cs with
  | some (at0, _, _, r3) => some (takeDiff at0 r3)
  | none => none

/-- First match of a `pre (group) post` pattern, returning `group(1)`. -/
def reFindG (pre body post : RE) (cs : List Char) : Option (List Char) :=
  match reSearchG pre body post none cs with
  | some (_, r1, r2, _) => some (takeDiff r1 r2)
  | none => none

/-- Start index of the first match (Python `match.start()`). -/
def reFindIdx (re : RE) (cs : List Char) : Option Nat :=
  match reSearchG .eps re .eps none cs with
  | some (at0, _, _, _) => some (cs.length - at0.length)
  | none => none

/-- All `group(1)` texts of non-overlapping leftmost matches (Python
`re.finditer`), fuelled by the input length; the patterns used with this
combinator always consume at least one character, so the fuel is exact and
the `r3.length < cs.length` progress guard never fails. -/
def reFindIterF (pre body post : RE) : Nat → List Char → List (List Char)
  | 0, _ => []
  | f + 1, cs =>
    match reSearchG pre body post none cs with
    | none => []
    | some (_, r1, r2, r3) =>
      takeDiff r1 r2 ::
        (if r3.length < cs.length then reFindIterF pre body post f r3 else [])

def reFindIter (pre body post : RE) (cs : List Char) : List (List Char) :=
  reFindIterF pre body post (cs.length + 1) cs

/-! ## Character classes of the embedded patterns -/

def clsDigit (c : Char) : Bool := c.isDigit
def clsUpper (c : Char) : Bool := c.isUpper
def clsLower (c : Char) : Bool := c.isLower
def clsAlpha (c : Char) : Bool := c.isAlpha
/-- Python `[A-Za-z0-9._%+-]` (e-mail local part). -/
def clsEmailLoc (c : Char) : Bool :=
  c.isAlphanum || c = '.' || c = '_' || c = '%' || c = '+' || c = '-'
/-- Python `[A-Za-z0-9.-]` (e-mail domain). -/
def clsEmailDom (c : Char) : Bool := c.isAlphanum || c = '.' || c = '-'
/-- Python `[A-Z|a-z]` — the source's TLD class literally contains a pipe. -/
def clsTld (c : Char) : Bool := c.isAlpha || c = '|'
/-- Python `[-.\s]` (phone separators). -/
def clsPhoneSep (c : Char) : Bool := c = '-' || c = '.' || chWS c
/-- Python `[:\n]`. -/
def clsColonNl (c : Char) : Bool := c = ':' || c = '\n'
/-- Python `[:\s]`. -/
def clsColonWS (c : Char) : Bool := c = ':' || chWS c
/-- Python `.` under `re.DOTALL`. -/
def clsAnyD (_ : Char) : Bool := true
/-- Python `.` without `re.DOTALL`. -/
def clsAnyN (c : Char) : Bool := c ≠ '\n'
/-- Python `[^)]`. -/
def clsNotRP (c : Char) : Bool := c ≠ ')'
/-- Python `[\w-]`. -/
def clsWordDash (c : Char) : Bool := isWordCh c || c = '-'
/-- Python `[-,\s]`. -/
def clsDashCommaWS (c : Char) : Bool := c = '-' || c = ',' || chWS c
/-- Python `[-\s]`. -/
def clsDashWS (c : Char) : Bool := c = '-' || chWS c
/-- Python `\s` as a class. -/
def clsWS (c : Char) : Bool := chWS c
/-- Python `\w`. -/
def clsWord (c : Char) : Bool := isWordCh c
/-- Python `[A-Z\s]` (docling all-caps section line, case-sensitive). -/
def clsUpWS (c : Char) : Bool := c.isUpper || chWS c
/-- Python `[A-ZİÖÜÇŞĞ]` under `re.IGNORECASE`: ASCII letters of either case
plus the listed Turkish letters in either case (ASCII approximation of
Python's unicode case folding). -/
def clsTr1 (c : Char) : Bool :=
  c.isAlpha || ['İ', 'Ö', 'Ü', 'Ç', 'Ş', 'Ğ', 'ı', 'ö', 'ü', 'ç', 'ş', 'ğ'].contains c
/-- Python `[a-züğışçö]` under `re.IGNORECASE`. -/
def clsTr2 (c : Char) : Bool :=
  c.isAlpha || ['ü', 'ğ', 'ı', 'ş', 'ç', 'ö', 'Ü', 'Ğ', 'Ş', 'Ç', 'Ö', 'İ'].contains c

/-- Right-nested sequence of regex parts. -/
def reSeqs : List RE → RE
  | [] => .eps
  | [r] => r
  | r :: rs => .seq r (reSeqs rs)

/-! ## The concrete patterns of `cv_parser.py` / `cv_parser_docling.py`

Each definition is the direct transliteration of one `re` pattern of the
sources; `n` bounds the unbounded repetitions by the subject length. -/

/-- Pattern `\b[A-Za-z0-9._%+-]+@[A-Za-z0-9.-]+\.[A-Z|a-z]{2,}\b`. -/
def emailRE (n : Nat) : RE :=
  reSeqs [.bnd, rePlus (.cls clsEmailLoc) n, reStr "@", rePlus (.cls clsEmailDom) n,
          reStr ".", .cls clsTld, rePlus (.cls clsTld) n, .bnd]

/-- Pattern `\+?\d{1,3}[-.\s]?\(?\d{3}\)?[-.\s]?\d{3}[-.\s]?\d{4}`. -/
def phone1RE : RE :=
  reSeqs [reOpt (reStr "+"), .cls clsDigit, reRepN (.cls clsDigit) 2,
          reOpt (.cls clsPhoneSep), reOpt (reStr "("), reTimes (.cls clsDigit) 3,
          reOpt (reStr ")"), reOpt (.cls clsPhoneSep), reTimes (.cls clsDigit) 3,
          reOpt (.cls clsPhoneSep), reTimes (.cls clsDigit) 4]

/-- Pattern `\+?\d{10,13}`. -/
def phone2RE : RE :=
  reSeqs [reOpt (reStr "+"), reTimes (.cls clsDigit) 10, reRepN (.cls clsDigit) 3]

/-- Pattern `\(?\d{3}\)?[-.\s]?\d{3}[-.\s]?\d{4}`. -/
def phone3RE : RE :=
  reSeqs [reOpt (reStr "("), reTimes (.cls clsDigit) 3, reOpt (reStr ")"),
          reOpt (.cls clsPhoneSep), reTimes (.cls clsDigit) 3,
          reOpt (.cls clsPhoneSep), reTimes (.cls clsDigit) 4]

/-- Pattern `linkedin\.com/in/[\w-]+` (IGNORECASE). -/
def linkedin1RE (n : Nat) : RE :=
  reSeqs [reStrCI "linkedin.com/in/", rePlus (.cls clsWordDash) n]

/-- Pattern `www\.linkedin\.com/in/[\w-]+` (IGNORECASE). -/
def linkedin2RE (n : Nat) : RE :=
  reSeqs [reStrCI "www.linkedin.com/in/", rePlus (.cls clsWordDash) n]

/-- Pattern `[A-Z]{2,}[-,\s]+[A-Z]{2,}` (case-sensitive). -/
def locAllCapsRE (n : Nat) : RE :=
  reSeqs [.cls clsUpper, .cls clsUpper, reRepN (.cls clsUpper) n,
          rePlus (.cls clsDashCommaWS) n,
          .cls clsUpper, .cls clsUpper, reRepN (.cls clsUpper) n]

/-- Pattern `([A-Z][A-Za-z]+(?:[-\s][A-Z][A-Za-z]+)+)` (case-sensitive). -/
def locGrp1RE (n : Nat) : RE :=
  reSeqs [.cls clsUpper, rePlus (.cls clsAlpha) n,
          rePlus (reSeqs [.cls clsDashWS, .cls clsUpper, rePlus (.cls clsAlpha) n]) n]

/-- Pattern `[A-Z][a-z]+[-,\s]+[A-Z][a-z]+` (case-sensitive). -/
def locPairRE (n : Nat) : RE :=
  reSeqs [.cls clsUpper, rePlus (.cls clsLower) n, rePlus (.cls clsDashCommaWS) n,
          .cls clsUpper, rePlus (.cls clsLower) n]

/-- Pattern `([A-Z][A-Za-z]+(?:[-,\s]+[A-Z][A-Za-z]+)+)` (case-sensitive). -/
def locGrp2RE (n : Nat) : RE :=
  reSeqs [.cls clsUpper, rePlus (.cls clsAlpha) n,
          rePlus (reSeqs [rePlus (.cls clsDashCommaWS) n, .cls clsUpper,
                          rePlus (.cls clsAlpha) n]) n]

/-- Pattern `([A-Z][a-z]+\s+\d{4}\s*-\s*(?:Present|[A-Z][a-z]+\s+\d{4}))`
(case-sensitive; group 1 is the whole match). -/
def dateRE (n : Nat) : RE :=
  reSeqs [.cls clsUpper, rePlus (.cls clsLower) n, rePlus (.cls clsWS) n,
          reTimes (.cls clsDigit) 4, reRepN (.cls clsWS) n, reStr "-",
          reRepN (.cls clsWS) n,
          reAlts [reStr "Present",
                  reSeqs [.cls clsUpper, rePlus (.cls clsLower) n,
                          rePlus (.cls clsWS) n, reTimes (.cls clsDigit) 4]]]

/-- Group body of `\(([0-9]+\s*(?:year|month)s?[^)]*)\)` (case-sensitive). -/
def durBodyRE (n : Nat) : RE :=
  reSeqs [.cls clsDigit, reRepN (.cls clsDigit) n, reRepN (.cls clsWS) n,
          reAlts [reStr "year", reStr "month"], reOpt (reStr "s"),
          reRepN (.cls clsNotRP) n]

/-! ## Dedicated textual helpers transliterated from the sources -/

/-- Case-insensitive literal prefix stripping (returns the rest). -/
def dropCI : List Char → List Char → Option (List Char)
  | [], cs => some cs
  | p :: ps, c :: cs => if chLow p = chLow c then dropCI ps cs else none
  | _ :: _, [] => none

/-- Drop one-or-more whitespace (`\s+`, greedy — the run is maximal). -/
def dropWS1 : List Char → Option (List Char)
  | c :: cs => if chWS c then some (dropWhileP chWS cs) else none
  | [] => none

/-- Case-insensitive prefix test. -/
def isPfxOfCI : List Char → List Char → Bool
  | [], _ => true
  | _ :: _, [] => false
  | p :: ps, c :: cs => chLow p = chLow c && isPfxOfCI ps cs

/-- Tail of an anchored header regex: the section name (case-insensitively)
followed by an optional colon and the end of the line — the `Name:?$` part
of `^(Top\s+)?Skills:?$` and `^(Languages|...|Education):?$`. -/
def nameTail (name cs : List Char) : Bool :=
  match dropCI name cs with
  | some r => r == [] || r == [':']
  | none => false

/-- The Skills header test of `extract_skills`:
`re.match(r'^(Top\s+)?Skills:?$', line, re.IGNORECASE)` on a stripped line. -/
def isSkillsHeaderL (cs : List Char) : Bool :=
  (match dropCI "top".data cs with
   | some r =>
     match dropWS1 r with
     | some r2 => nameTail "skills".data r2
     | none => false
   | none => false)
  || nameTail "skills".data cs

/-- The terminator test of `extract_skills`:
`re.match(r'^(Languages|Certifications|Experience|Education):?$', line, re.IGNORECASE)`. -/
def isStopHeaderL (cs : List Char) : Bool :=
  nameTail "languages".data cs || nameTail "certifications".data cs ||
  nameTail "experience".data cs || nameTail "education".data cs

/-- Modelled from the spec's matching rule, for comparison with the source
matchers: remove one optional trailing colon. -/
def dropTrailColon (cs : List Char) : List Char :=
  if endsWithL cs [':'] then cs.dropLast else cs

/-- Python `re.sub(r'^in\s+', '', s, flags=re.IGNORECASE)`. -/
def stripInKw (cs : List Char) : List Char :=
  match dropCI "in".data cs with
  | some r =>
    match dropWS1 r with
    | some r2 => r2
    | none => cs
  | none => cs

/-- Python `re.match(r'^[A-Z][a-z]+,\s*[A-Z][a-z]+$', line)`. -/
def cityCountry (cs : List Char) : Bool :=
  (reTryG .eps
    (reSeqs [.cls clsUpper, rePlus (.cls clsLower) cs.length, reStr ",",
             reRepN (.cls clsWS) cs.length, .cls clsUpper,
             rePlus (.cls clsLower) cs.length, .eos])
    .eps none cs).isSome

/-- Python `re.match(r'^[A-ZİÖÜÇŞĞ][a-züğışçö]+[-,\s]+[A-Z][a-z]+$', line, re.IGNORECASE)`. -/
def locLineMatch (cs : List Char) : Bool :=
  (reTryG .eps
    (reSeqs [.cls clsTr1, rePlus (.cls clsTr2) cs.length,
             rePlus (.cls clsDashCommaWS) cs.length, .cls clsAlpha,
             rePlus (.cls clsAlpha) cs.length, .eos])
    .eps none cs).isSome

/-- Python `re.search(r'\([12]\d{3}\)', line)` as a Boolean. -/
def hasParenYear (cs : List Char) : Bool :=
  (reFind (reSeqs [reStr "(", .cls (fun c => c = '1' || c = '2'),
                   reTimes (.cls clsDigit) 3, reStr ")"]) cs).isSome

/-- Python `re.search(r'&\s+\w+', line)` as a Boolean. -/
def hasAmpWord (cs : List Char) : Bool :=
  (reFind (reSeqs [reStr "&", rePlus (.cls clsWS) cs.length,
                   rePlus (.cls clsWord) cs.length]) cs).isSome

/-- The split alternatives of
`re.split(r'\s+(?:SAP|implementation|&|Turkey|International)', company, flags=re.IGNORECASE)`. -/
def sapAlts : List (List Char) :=
  ["sap".data, "implementation".data, "&".data, "turkey".data, "international".data]

/-- Whether one of the split alternatives matches case-insensitively at the
head of `rest`. -/
def sapAltHit (rest : List Char) : Bool :=
  sapAlts.any (fun a => isPfxOfCI a rest)

/-- The part of `company` before the first match of the split pattern
(`re.split(...)[0]`), or `none` when the pattern does not occur.  The
alternatives all begin with non-whitespace, so a match begins at the first
character of a whitespace run whose end is followed by an alternative. -/
def sapCutPre : List Char → Option (List Char)
  | [] => none
  | c :: cs =>
    if chWS c && sapAltHit (dropWhileP chWS cs) then some []
    else
      match sapCutPre cs with
      | some pre => some (c :: pre)
      | none => none

/-- Python `re.sub(r'[&\s]+$', '', s)`. -/
def dropTrailAmpWS (cs : List Char) : List Char :=
  (dropWhileP (fun c => c = '&' || chWS c) cs.reverse).reverse

/-- Whether `\([12]\d{3}\)` matches at the head of `cs`. -/
def parenYearAt : List Char → Bool
  | '(' :: a :: b :: c :: d :: ')' :: _ =>
    (a = '1' || a = '2') && b.isDigit && c.isDigit && d.isDigit
  | _ => false

/-- Python `re.sub(r'\([12]\d{3}\)', '', s)` (fuelled by the input length,
which is exact since every step consumes at least one character). -/
def removeParenYearsF : Nat → List Char → List Char
  | 0, _ => []
  | _ + 1, [] => []
  | f + 1, c :: cs =>
    if parenYearAt (c :: cs) then removeParenYearsF f (cs.drop 5)
    else c :: removeParenYearsF f cs

def removeParenYears (cs : List Char) : List Char := removeParenYearsF cs.length cs

/-- Index of the first `)` with no interposed newline (the `.*?` of
`\(.*?\)` cannot cross a newline). -/
def findRP : List Char → Option Nat
  | [] => none
  | c :: cs =>
    if c = ')' then some 0
    else if c = '\n' then none
    else (findRP cs).map (· + 1)

/-- Python `re.sub(r'\(.*?\)', '', s)` (fuelled by the input length). -/
def removeParenGroupsF : Nat → List Char → List Char
  | 0, _ => []
  | _ + 1, [] => []
  | f + 1, c :: cs =>
    if c = '(' then
      match findRP cs with
      | some k => removeParenGroupsF f (cs.drop (k + 1))
      | none => '(' :: removeParenGroupsF f cs
    else c :: removeParenGroupsF f cs

def removeParenGroups (cs : List Char) : List Char := removeParenGroupsF cs.length cs

/-- Python dash characters of `re.sub(r'\s*[–-]\s*', ' - ', lang)`. -/
def dashCh (c : Char) : Bool := c = '-' || c = '–'

/-- Whether the dash-normalisation pattern matches at the head. -/
def dashHit (cs : List Char) : Bool :=
  match dropWhileP chWS cs with
  | d :: _ => dashCh d
  | [] => false

/-- The rest of the input after the dash-normalisation match at the head. -/
def dashTail (cs : List Char) : List Char :=
  match dropWhileP chWS cs with
  | _ :: r2 => dropWhileP chWS r2
  | [] => []

/-- Python `re.sub(r'\s*[–-]\s*', ' - ', lang)` (scan left to right,
replacing each non-overlapping match; fuelled by the input length, which is
exact since a match consumes at least the dash character). -/
def dashSubF : Nat → List Char → List Char
  | 0, _ => []
  | _ + 1, [] => []
  | f + 1, c :: cs =>
    if dashHit (c :: cs) then
      ' ' :: '-' :: ' ' :: dashSubF f (dashTail (c :: cs))
    else c :: dashSubF f cs

def dashSub (cs : List Char) : List Char := dashSubF cs.length cs

/-! ## Pattern search wrappers (Python `re.search` on the full text/line) -/

/-- First e-mail match in `text` (`CVParser.extract_contact_info`, also the
LLM fallback). -/
def emailSearch (cs : List Char) : Option (List Char) :=
  reFind (emailRE cs.length) cs

/-- First phone match: the three patterns are tried in order, first match
wins; the matched text is stripped. -/
def phoneSearch (cs : List Char) : Option (List Char) :=
  match reFind phone1RE cs with
  | some m => some (trimL m)
  | none =>
    match reFind phone2RE cs with
    | some m => some (trimL m)
    | none =>
      match reFind phone3RE cs with
      | some m => some (trimL m)
      | none => none

/-- LinkedIn: two patterns tried in order. -/
def linkedinSearch (cs : List Char) : Option (List Char) :=
  match reFind (linkedin1RE cs.length) cs with
  | some m => some m
  | none => reFind (linkedin2RE cs.length) cs

/-- The location scan over the first 20 lines of
`CVParser.extract_contact_info` (both branches keep scanning when the inner
group pattern or the `@`/`+` filters reject the line). -/
def locLineScan : List (List Char) → Option (List Char)
  | [] => none
  | l :: rest =>
    let line := trimL l
    if (reFind (locAllCapsRE line.length) line).isSome then
      match reFindG .eps (locGrp1RE line.length) .eps line with
      | some g => some g
      | none => locLineScan rest
    else if (reFind (locPairRE line.length) line).isSome
            && !(containsL line "Contact".data) then
      match reFindG .eps (locGrp2RE line.length) .eps line with
      | some g =>
        if !(containsL line ['@']) && !(containsL line ['+']) then some g
        else locLineScan rest
      | none => locLineScan rest
    else locLineScan rest

/-- Date-range search of a look-ahead line, with the optional parenthesised
duration appended (`CVParser.extract_experience`). -/
def datePeriod (nl : List Char) : Option (List Char) :=
  match reFind (dateRE nl.length) nl with
  | some d =>
    some (match reFindG (reStr "(") (durBodyRE nl.length) (reStr ")") nl with
          | some du => d ++ " (".data ++ du ++ [')']
          | none => d)
  | none => none

/-- Captured Languages-section text of `CVParser.extract_languages`:
`re.search(r'Languages?[:\n]+(.+?)(?=\n\n[A-Z]|\nCertifications|\nExperience|\nEducation|$)', text, re.IGNORECASE | re.DOTALL)`. -/
def langSectG (cs : List Char) : Option (List Char) :=
  reFindG
    (reSeqs [reStrCI "language", reOpt (reStrCI "s"), rePlus (.cls clsColonNl) cs.length])
    (rePlusL (.cls clsAnyD) cs.length)
    (.look (reAlts [reSeqs [reStr "\n\n", .cls clsAlpha],
                    reStrCI "\ncertifications", reStrCI "\nexperience",
                    reStrCI "\neducation", .eos]))
    cs

/-- Captured Education-section text of `CVParser.extract_education`:
`re.search(r'Education[:\n]+(.+?)(?=\nExperience|\nCertifications|$)', text, re.IGNORECASE | re.DOTALL)`. -/
def eduSectG (cs : List Char) : Option (List Char) :=
  reFindG
    (reSeqs [reStrCI "education", rePlus (.cls clsColonNl) cs.length])
    (rePlusL (.cls clsAnyD) cs.length)
    (.look (reAlts [reStrCI "\nexperience", reStrCI "\ncertifications", .eos]))
    cs

/-! ## `CVParser.extract_name` -/

def nameSkipKws : List String :=
  ["top skills", "summary", "education", "experience", "objective",
   "qualification", "certification", "it governance", "it services",
   "it project", "management", "languages"]

def nameStartKws : List String := ["resume", "cv", "curriculum", "contact"]

def nameBadWords : List String :=
  ["skills", "certified", "lead", "manager", "analyst", "developer"]

/-- Python `str.isupper()` (ASCII approximation: at least one letter and all
letters uppercase). -/
def pyIsUpper (w : List Char) : Bool :=
  w.any (fun c => c.isAlpha) && w.all (fun c => !c.isAlpha || c.isUpper)

/-- First word starts with a capital, or the word is all-caps (the
`capital_words` membership test of `extract_name`). -/
def capitalWord (w : List Char) : Bool :=
  w.length > 1 && ((match w with | c :: _ => c.isUpper | [] => false) || pyIsUpper w)

/-- The `Contact `-prefix loop over the first 10 lines: on a match the line
with every occurrence of `Contact` removed (Python `str.replace`) and
stripped is returned provided it has at least two words. -/
def contactScan : List (List Char) → Option (List Char)
  | [] => none
  | l :: rest =>
    if isPfxOf "Contact ".data (trimL l) then
      let np := trimL (removeAll "Contact".data l)
      if np ≠ [] && (wordsOf np).length ≥ 2 then some np else contactScan rest
    else contactScan rest

/-- The heuristic name scan over the first 15 lines. -/
def heurScan : List (List Char) → Option (List Char)
  | [] => none
  | l :: rest =>
    let line := trimL l
    if line.length < 3 then heurScan rest
    else if nameSkipKws.any (fun k => containsL (lowerL line) k.data) then heurScan rest
    else if nameStartKws.any (fun k => isPfxOf k.data (lowerL line)) then heurScan rest
    else
      let ws := wordsOf line
      if 2 ≤ ws.length && ws.length ≤ 5
          && line.any (fun c => c.isUpper)
          && !(containsL line ['@']) && !(containsL line ['+'])
          && !(containsL line ['/']) && !(containsL line "www".data)
          && !(containsL line "http".data) && !(containsL line [':'])
          && !(containsL line ['•'])
          && countCh line ',' ≤ 1 && countCh line '-' ≤ 1
          && (ws.filter capitalWord).length ≥ 2
          && !(ws.any (fun w => nameBadWords.any (fun b => lowerL w == b.data)))
      then line
      else heurScan rest

def extractNameLines (lines : List (List Char)) : List Char :=
  match contactScan (lines.take 10) with
  | some v => v
  | none =>
    match heurScan (lines.take 15) with
    | some v => v
    | none => []

def extractName (text : String) : String :=
  String.mk (extractNameLines (splitBy (fun c => c = '\n') text.data))

/-! ## `CVParser.extract_contact_info` -/

def extractContactInfo (text : String) : List (String × String) :=
  let cs := text.data
  let lines := splitBy (fun c => c = '\n') cs
  (match emailSearch cs with
   | some m => [("email", String.mk m)]
   | none => []) ++
  (match phoneSearch cs with
   | some m => [("phone", String.mk m)]
   | none => []) ++
  (match linkedinSearch cs with
   | some m => [("linkedin", String.mk m)]
   | none => []) ++
  (match locLineScan (lines.take 20) with
   | some m => [("location", String.mk m)]
   | none => [])

/-! ## `CVParser.extract_skills` -/

/-- Skills extracted from one (stripped) section line: comma-separated parts
or the whole line, with a leading `in ` removed and short or `page `/`www.`
noise dropped. -/
def skillLineParts (line : List Char) : List (List Char) :=
  if containsL line [','] then
    ((splitBy (fun c => c = ',') line).map (fun part => stripInKw (trimL part))).filter
      (fun s => s ≠ [] && s.length > 2 &&
        !(isPfxOf "page ".data (lowerL s)) && !(isPfxOf "www.".data (lowerL s)))
  else
    let s := trimL (stripInKw line)
    if s ≠ [] && s.length > 2 then [s] else []

/-- The line scan of the primary skills path: `in_skills_section` /
`skills_line_count` state machine; the count check `> 10` happens after the
line has been processed, so an 11th content line still contributes. -/
def skillsLoop : List (List Char) → Bool → Nat → List (List Char) → List (List Char)
  | [], _, _, acc => acc
  | l :: rest, inSec, cnt, acc =>
    let line := trimL l
    if isSkillsHeaderL line then skillsLoop rest true 0 acc
    else if inSec && isStopHeaderL line then acc
    else if inSec then
      let acc2 := acc ++ skillLineParts line
      if cnt + 1 > 10 then acc2 else skillsLoop rest true (cnt + 1) acc2
    else skillsLoop rest inSec cnt acc

/-- The fallback patterns applied when the primary path collects nothing. -/
def fbSkills (cs : List Char) : List (List Char) :=
  let n := cs.length
  let g1 := reFindIter
    (reSeqs [reStrCI "skill", reOpt (reStrCI "s"), reStr ":", reRepN (.cls clsWS) n])
    (rePlus (.cls clsAnyN) n) .eps cs
  let g2 := reFindIter .eps
    (reSeqs [reStrCI "IT", rePlus (.cls clsWS) n, rePlus (.cls clsWord) n,
             reRepN (reSeqs [rePlus (.cls clsWS) n, rePlus (.cls clsWord) n]) 2])
    .eps cs
  let g3 := reFindIter .eps
    (reAlts [reStrCI "Leadership", reStrCI "Communication",
             reStrCI "Problem-solving", reStrCI "Time-management"]) .eps cs
  let g4 := reFindIter .eps
    (reSeqs [reStrCI "Team", rePlus (.cls clsWS) n,
             reAlts [reStrCI "leader", reStrCI "player"]]) .eps cs
  let g5 := reFindIter .eps
    (reAlts [reSeqs [reStrCI "Project", rePlus (.cls clsWS) n, reStrCI "management"],
             reSeqs [reStrCI "Data", rePlus (.cls clsWS) n, reStrCI "analysis"],
             reSeqs [reStrCI "Resource", rePlus (.cls clsWS) n, reStrCI "management"]])
    .eps cs
  ((g1 ++ g2 ++ g3 ++ g4 ++ g5).map trimL).filter
    (fun s => s ≠ [] && 5 < s.length && s.length < 60)

/-- The dedup loop: first-seen order, key `skill.lower().strip()`, items of
length at most 2 dropped; skipped items leave `seen` unchanged. -/
def dedupCI : List (List Char) → List (List Char) → List (List Char)
  | [], _ => []
  | s :: rest, seen =>
    let key := trimL (lowerL s)
    if seen.contains key || s.length ≤ 2 then dedupCI rest seen
    else s :: dedupCI rest (key :: seen)

/-- The `skills` list before dedup: section collection, or the fallback
patterns when the section path collected nothing. -/
def skillsRaw (cs : List Char) : List (List Char) :=
  let collected := skillsLoop (splitBy (fun c => c = '\n') cs) false 0 []
  if collected = [] then fbSkills cs else collected

def extractSkillsL (cs : List Char) : List (List Char) :=
  (dedupCI (skillsRaw cs) []).take 25

def extractSkills (text : String) : List String :=
  (extractSkillsL text.data).map String.mk

/-! ## `CVParser.extract_languages` -/

def extractLanguagesL (cs : List Char) : List (List Char) :=
  match langSectG cs with
  | some g =>
    (((splitBy (fun c => c = ',' || c = '\n' || c = '•' || c = '·') (trimL g)).map
        trimL).filter (fun l => l ≠ [] && l.length > 2)).take 10
  | none => []

def extractLanguages (text : String) : List String :=
  (extractLanguagesL text.data).map String.mk

/-! ## `CVParser.extract_education` -/

structure EduEntry where
  degree : Option String
  period : Option String
  institution : Option String
  details : Option String
deriving Repr, DecidableEq

def eduEmpty : EduEntry := ⟨none, none, none, none⟩

/-- Python dict truthiness of `current_edu`. -/
def eduIsEmpty (e : EduEntry) : Bool :=
  e.degree.isNone && e.period.isNone && e.institution.isNone && e.details.isNone

def eduKws : List String := ["bachelor", "master", "phd", "degree", "diploma"]

/-- Python `re.search(r'\d{4}', line)` as a Boolean. -/
def hasYear (cs : List Char) : Bool :=
  (reFind (reTimes (.cls clsDigit) 4) cs).isSome

def eduFlush (cur : EduEntry) (acc : List EduEntry) : List EduEntry :=
  if eduIsEmpty cur then acc else acc ++ [cur]

def eduLoop : List (List Char) → EduEntry → List EduEntry → List EduEntry
  | [], cur, acc => eduFlush cur acc
  | l :: rest, cur, acc =>
    if eduKws.any (fun k => containsL (lowerL l) k.data) then
      eduLoop rest ⟨some (String.mk l), none, none, none⟩ (eduFlush cur acc)
    else if hasYear l then
      if cur.period.isNone then eduLoop rest { cur with period := some (String.mk l) } acc
      else eduLoop rest cur acc
    else if l.length > 5 && !(isPfxOf "Page".data l) then
      if cur.institution.isNone then
        eduLoop rest { cur with institution := some (String.mk l) } acc
      else if cur.details.isNone then
        eduLoop rest { cur with details := some (String.mk l) } acc
      else eduLoop rest cur acc
    else eduLoop rest cur acc

def extractEducationL (cs : List Char) : List EduEntry :=
  match eduSectG cs with
  | some g =>
    eduLoop (((splitBy (fun c => c = '\n') g).map trimL).filter (fun l => l ≠ []))
      eduEmpty []
  | none => []

def extractEducation (text : String) : List EduEntry :=
  extractEducationL text.data

/-! ## `CVParser.extract_experience` (whole-document strategy A) -/

structure Exp where
  company : String
  position : String
  period : String
  location : String
  responsibilities : List String
deriving Repr, DecidableEq

def companyKws : List String :=
  ["Tobacco", "Cosmetics", "Coca-Cola", "IBM", "Bottlers", "Icecek", "Avon",
   "British American", "BAT", "CCI", "Turkey"]

def expSkipWords : List String :=
  ["certification", "university", "degree", "page ", "skills:", "languages:",
   "toeic", "itil", "delf", "dalf", "pmp", "iso 27001", "iso 22001", "honors",
   "lycée", "bachelor", "for turkey", "participated:", "markets:", "owner,"]

def projWords : List String :=
  ["project", "implementation", "upgrade", "module", "baseline"]

def posKws1 : List String :=
  ["Manager", "Analyst", "Lead", "Specialist", "Director", "Intern",
   "Coordinator", "Engineer", "Developer", "Owner", "Officer", "Tester",
   "Performer", "Solutions"]

def posKws2 : List String :=
  ["Manager", "Analyst", "Lead", "Specialist", "Director", "Intern",
   "Coordinator", "Engineer", "Developer", "Officer", "Solutions"]

def lineSkip (line : List Char) : Bool :=
  expSkipWords.any (fun w => containsL (lowerL line) w.data)

def hasPosKw1 (cs : List Char) : Bool :=
  posKws1.any (fun k => containsCIL cs k.data)

def hasPosKw2 (cs : List Char) : Bool :=
  posKws2.any (fun k => containsCIL cs k.data)

/-- The job-title test and cleanup inside the company look-ahead; `none`
either when the line is not taken as a position or when the cleaned title is
empty (in both cases the loop just advances). -/
def posCheck (nl pos : List Char) : Option (List Char) :=
  if pos = [] && nl.length > 5 && hasPosKw1 nl
      && !(companyKws.any (fun k => containsL nl k.data)) then
    let cp := trimL (removeParenGroups (removeParenYears nl))
    if cp ≠ [] then some cp else none
  else none

structure LookRes where
  position : List Char
  period : List Char
  location : List Char
  j : Nat
deriving Repr

/-- The look-ahead loop `while j < len(lines) and j < i + 15` following a
company line: skips blank and skip-word lines, breaks on a date match
(optionally consuming a following location line), otherwise records the
first job-title line. -/
def lookAhead (lines : List (List Char)) :
    Nat → Nat → List Char → List Char → List Char → LookRes
  | 0, j, pos, per, loc => ⟨pos, per, loc, j⟩
  | steps + 1, j, pos, per, loc =>
    if j < lines.length then
      let nl := trimL (lines.getD j [])
      if nl.length < 3 then lookAhead lines steps (j + 1) pos per loc
      else if lineSkip nl then lookAhead lines steps (j + 1) pos per loc
      else
        match datePeriod nl, per with
        | some d, [] =>
          let j2 := j + 1
          if j2 < lines.length then
            let ll := trimL (lines.getD j2 [])
            if locLineMatch ll then ⟨pos, d, ll, j2 + 1⟩ else ⟨pos, d, loc, j2⟩
          else ⟨pos, d, loc, j2⟩
        | _, _ =>
          match posCheck nl pos with
          | some cp => lookAhead lines steps (j + 1) cp per loc
          | none => lookAhead lines steps (j + 1) pos per loc
    else ⟨pos, per, loc, j⟩

structure OrphRes where
  period : List Char
  location : List Char
  j : Nat
deriving Repr

/-- The shorter look-ahead (`while j < len(lines) and j < i + 5`) used for
orphaned positions: only a date is searched for. -/
def orphanLook (lines : List (List Char)) : Nat → Nat → OrphRes
  | 0, j => ⟨[], [], j⟩
  | steps + 1, j =>
    if j < lines.length then
      let nl := trimL (lines.getD j [])
      match datePeriod nl with
      | some d =>
        let j2 := j + 1
        if j2 < lines.length then
          let ll := trimL (lines.getD j2 [])
          if locLineMatch ll then ⟨d, ll, j2 + 1⟩ else ⟨d, [], j2⟩
        else ⟨d, [], j2⟩
      | none => orphanLook lines steps (j + 1)
    else ⟨[], [], j⟩

/-- One step of the company-name cleanup: the SAP/implementation truncation
(`re.split` prefix kept only when longer than 10 characters) followed by the
trailing `&`/whitespace strip. -/
def companyClean (line : List Char) : List Char :=
  let co1 :=
    if containsL line "SAP".data || containsL (lowerL line) "implementation".data then
      match sapCutPre line with
      | some pre => if pre.length > 10 then trimL pre else line
      | none => if line.length > 10 then trimL line else line
    else line
  trimL (dropTrailAmpWS co1)

/-- The main scan of `CVParser.extract_experience`.  The Python `while i <
len(lines)` loop strictly increases `i` every iteration, so `lines.length +
1` units of fuel make the recursion exact. -/
def expLoop (lines : List (List Char)) :
    Nat → Nat → Option (List Char) → List Exp → List Exp
  | 0, _, _, acc => acc
  | fuel + 1, i, lastCo, acc =>
    if i < lines.length then
      let line := trimL (lines.getD i [])
      if line.length < 3 then expLoop lines fuel (i + 1) lastCo acc
      else if lineSkip line then expLoop lines fuel (i + 1) lastCo acc
      else
        let isCo := (companyKws.any (fun k => containsL line k.data))
            && line.length < 50 && countCh line ',' ≤ 1
            && !(cityCountry line) && !(hasParenYear line)
            && !(containsL line [':'] && line.length > 25)
            && !(projWords.any (fun w => containsL (lowerL line) w.data))
            && !(hasAmpWord line)
        if isCo then
          let co := companyClean line
          let r := lookAhead lines 14 (i + 1) [] [] []
          if co ≠ [] && r.position ≠ [] then
            expLoop lines fuel r.j (some co)
              (acc ++ [⟨String.mk co, String.mk r.position, String.mk r.period,
                        String.mk r.location, []⟩])
          else expLoop lines fuel r.j lastCo acc
        else if line.length > 10 && hasPosKw2 line
            && !(endsWithL line ['.'] || endsWithL line [':'] || endsWithL line [';'])
            && !(isPfxOf "For ".data line || isPfxOf "Managing".data line
                 || isPfxOf "Supporting".data line) then
          let r := orphanLook lines 4 (i + 1)
          match lastCo with
          | some lc =>
            if r.period ≠ [] then
              let cp := trimL (removeParenGroups (removeParenYears line))
              if cp ≠ [] then
                expLoop lines fuel r.j lastCo
                  (acc ++ [⟨String.mk lc, String.mk cp, String.mk r.period,
                            String.mk r.location, []⟩])
              else expLoop lines fuel (i + 1) lastCo acc
            else expLoop lines fuel (i + 1) lastCo acc
          | none => expLoop lines fuel (i + 1) lastCo acc
        else expLoop lines fuel (i + 1) lastCo acc
    else acc

def extractExperience (text : String) : List Exp :=
  let lines := splitBy (fun c => c = '\n') text.data
  expLoop lines (lines.length + 1) 0 none []

/-! ## `CVParserDocling.extract_experience` (explicit-section strategy B)

Entries are Python dicts whose keys may be individually absent, so every
field is an `Option`; appending to a missing `responsibilities` key raises
`KeyError`, modelled by `Except.error`. -/

structure DExp where
  position : Option String
  company : Option String
  period : Option String
  location : Option String
  responsibilities : Option (List String)
deriving Repr, DecidableEq

def dEmpty : DExp := ⟨none, none, none, none, none⟩

/-- Python dict truthiness of `current_exp`. -/
def dIsEmpty (e : DExp) : Bool :=
  e.position.isNone && e.company.isNone && e.period.isNone &&
  e.location.isNone && e.responsibilities.isNone

def dlPosKws : List String :=
  ["Specialist", "Engineer", "Developer", "Manager", "Analyst", "Lead",
   "Consultant", "Intern", "QA", "Tester"]

def dlFalseVerbs : List String := ["testing", "reported", "performed", "developed"]

def dlMonths : List String :=
  ["Present", "January", "February", "March", "April", "May", "June", "July",
   "August", "September", "October", "November", "December"]

/-- Python `re.search(r'(20\d{2}|Present|January|...|December)', line, re.IGNORECASE)`. -/
def dlPeriodish (cs : List Char) : Bool :=
  (reFind (reSeqs [reStr "20", reTimes (.cls clsDigit) 2]) cs).isSome ||
  dlMonths.any (fun m => containsCIL cs m.data)

def dlFlush (cur : DExp) (acc : List DExp) : List DExp :=
  if dIsEmpty cur then acc else acc ++ [cur]

def dlExpLoop : List (List Char) → DExp → List DExp → Except String (List DExp)
  | [], cur, acc => .ok (dlFlush cur acc)
  | l :: rest, cur, acc =>
    if dlPosKws.any (fun k => containsCIL l k.data) then
      (if !(dlFalseVerbs.any (fun v => containsL (lowerL l) v.data)) then
        dlExpLoop rest ⟨some (String.mk l), some "", some "", some "", some []⟩
          (dlFlush cur acc)
      else dlExpLoop rest cur acc)
    else if containsL l [','] && l.length < 100 then
      (if cur.company.isNone || cur.company = some "" then
        dlExpLoop rest { cur with company := some (String.mk l) } acc
      else dlExpLoop rest cur acc)
    else if dlPeriodish l then
      (if cur.period.isNone || cur.period = some "" then
        dlExpLoop rest { cur with period := some (String.mk l) } acc
      else dlExpLoop rest cur acc)
    else if isPfxOf ['•'] l || isPfxOf ['�'] l then
      (if dIsEmpty cur then dlExpLoop rest cur acc
      else
        match cur.responsibilities with
        | some rs =>
          let item := String.mk (trimL (dropWhileP (fun c => c = '•' || c = '�') l))
          dlExpLoop rest { cur with responsibilities := some (rs ++ [item]) } acc
        | none => .error "KeyError: responsibilities")
    else dlExpLoop rest cur acc

/-- Captured section of `re.search(r'EXPERIENCE[:\s]*\n(.+?)(?=\nEDUCATION|\nCERTIFICATIONS|\nSKILLS|$)', text, re.IGNORECASE | re.DOTALL)`. -/
def dlExpSectG (cs : List Char) : Option (List Char) :=
  reFindG
    (reSeqs [reStrCI "experience", reRepN (.cls clsColonWS) cs.length, reStr "\n"])
    (rePlusL (.cls clsAnyD) cs.length)
    (.look (reAlts [reStrCI "\neducation", reStrCI "\ncertifications",
                    reStrCI "\nskills", .eos]))
    cs

def dlExtractExperienceL (cs : List Char) : Except String (List DExp) :=
  match dlExpSectG cs with
  | some g =>
    dlExpLoop (((splitBy (fun c => c = '\n') g).map trimL).filter (fun l => l ≠ []))
      dEmpty []
  | none => .ok []

def dlExtractExperience (text : String) : Except String (List DExp) :=
  dlExtractExperienceL text.data

/-! ## `CVParserDocling.extract_languages` (keyword-gated strategy) -/

def dlProgLangs : List String :=
  ["java", "python", "c#", "c++", ".net", "javascript", "html", "css", "php",
   "ruby", "go", "rust", "swift", "kotlin", "typescript", "sql"]

def dlSpokenKws : List String :=
  ["English", "Turkish", "Spanish", "French", "German", "Italian",
   "Portuguese", "Russian", "Chinese", "Japanese", "Korean", "Arabic"]

def dlProfKws : List String :=
  ["Native", "Fluent", "Intermediate", "Basic", "Beginner", "Upper",
   "Advanced", "A1", "A2", "B1", "B2", "C1", "C2"]

def dlLangBadUpper : List String :=
  ["LANGUAGES", "ADDITIONAL INFORMATION", "PROGRAMMING LANGUAGES", "CERTIFICATIONS"]

/-- Suffixes following each non-overlapping case-insensitive occurrence of
the literal `LANGUAGES` (`re.finditer` + `match.end()`), fuelled by the
input length (exact: each step consumes at least one character). -/
def findLangOccF : Nat → List Char → List (List Char)
  | 0, _ => []
  | _ + 1, [] => []
  | f + 1, c :: cs =>
    if isPfxOfCI "languages".data (c :: cs) then
      (cs.drop 8) :: findLangOccF f (cs.drop 8)
    else findLangOccF f cs

def findLangOcc (cs : List Char) : List (List Char) := findLangOccF cs.length cs

/-- Start index of `re.search(r'\n([A-Z][A-Z\s]+)\n', slice)` (case-sensitive). -/
def nextSecIdx (slice : List Char) : Option Nat :=
  reFindIdx
    (reSeqs [reStr "\n", .cls clsUpper, rePlus (.cls clsUpWS) slice.length, reStr "\n"])
    slice

/-- The per-entry cleanup of an accepted languages block. -/
def dlCleanLang : List (List Char) → List (List Char)
  | [] => []
  | r :: rest =>
    let lang := trimL r
    if lang = [] || lang.length < 3 then dlCleanLang rest
    else if dlProgLangs.any (fun p => p.data == lowerL lang) then dlCleanLang rest
    else if dlLangBadUpper.any (fun b => b.data == upperL lang) then dlCleanLang rest
    else if ["for full", "page ", "www.", "http"].any
        (fun s => isPfxOf s.data (lowerL lang)) then dlCleanLang rest
    else dashSub lang :: dlCleanLang rest

/-- Process the block following one `LANGUAGES` occurrence; `some` when the
block passes the proficiency/spoken gate, fails the programming gate, and
cleans to a non-empty list. -/
def dlLangFrom (tl : List Char) : Option (List (List Char)) :=
  let slice := tl.take 500
  let langText := trimL (match nextSecIdx slice with
    | some idx => slice.take idx
    | none => slice)
  let hasProf := dlProfKws.any (fun w => containsL langText w.data)
  let hasSpoken := dlSpokenKws.any (fun w => containsL langText w.data)
  let hasProg := (dlProgLangs.take 5).any (fun p => containsL (lowerL langText) p.data)
  if (hasProf || hasSpoken) && !hasProg then
    let cleaned :=
      dlCleanLang (splitBy (fun c => c = ',' || c = '\n' || c = '•' || c = '·') langText)
    if cleaned ≠ [] then some (cleaned.take 10) else none
  else none

def dlLangScan : List (List Char) → List (List Char)
  | [] => []
  | t :: rest =>
    match dlLangFrom t with
    | some r => r
    | none => dlLangScan rest

def dlExtractLanguagesL (cs : List Char) : List (List Char) :=
  dlLangScan (findLangOcc cs)

def dlExtractLanguages (text : String) : List String :=
  (dlExtractLanguagesL text.data).map String.mk

/-! ## `CVParserLLM` (`cv_parser_llm.py`)

`LlmData` models the JSON object delivered by a successful
`json.loads` after the `.get(key, default)` defaulting of `parse`; the
parameter `jp` abstracts `json.loads` (returning `none` exactly when
`json.JSONDecodeError` is raised). -/

structure LlmData where
  name : String
  email : String
  phone : String
  location : String
  linkedin : String
  summary : String
  skills : List String
  languages : List String
  certifications : List String
  education : List EduEntry
  experience : List Exp
deriving Repr, DecidableEq

/-- Python `re.sub(r'^```json\s*', '', r)`. -/
def subFence1 (cs : List Char) : List Char :=
  if isPfxOf "```json".data cs then dropWhileP chWS (cs.drop 7) else cs

/-- Python `re.sub(r'^```\s*', '', r)`. -/
def subFence2 (cs : List Char) : List Char :=
  if isPfxOf "```".data cs then dropWhileP chWS (cs.drop 3) else cs

/-- Whether `\s*```$` matches at the head of `cs` (the whitespace run is
forced to be maximal because a backquote is not whitespace); returns the
text left after the removed match. -/
def fenceTailHit (cs : List Char) : Option (List Char) :=
  let r := dropWhileP chWS cs
  if isPfxOf "```".data r then
    let rest := r.drop 3
    if rest = [] || rest = ['\n'] then some rest else none
  else none

/-- Python `re.sub(r'\s*```$', '', r)`. -/
def subFence3 : List Char → List Char
  | [] => []
  | c :: cs =>
    match fenceTailHit (c :: cs) with
    | some rest => rest
    | none => c :: subFence3 cs

/-- The response cleanup of `_extract_with_llm` (strip, then remove a
markdown code fence when present, then strip again). -/
def cleanLLMResponse (resp : String) : String :=
  let r := trimL resp.data
  if isPfxOf "```".data r then
    String.mk (trimL (subFence3 (subFence2 (subFence1 r))))
  else String.mk r

def fbEmail (cs : List Char) : String :=
  match reFind (emailRE cs.length) cs with
  | some m => String.mk m
  | none => ""

/-- The fallback phone extraction tries only the first two phone patterns. -/
def fbPhone (cs : List Char) : String :=
  match reFind phone1RE cs with
  | some m => String.mk (trimL m)
  | none =>
    match reFind phone2RE cs with
    | some m => String.mk (trimL m)
    | none => ""

/-- `CVParserLLM._fallback_extraction`. -/
def fallbackExtraction (text : String) : LlmData :=
  ⟨"", fbEmail text.data, fbPhone text.data, "", "", "", [], [], [], [], []⟩

/-- `CVParserLLM._extract_with_llm`: parse the cleaned response, fall back
on failure. -/
def extractWithLLM (jp : String → Option LlmData) (text resp : String) : LlmData :=
  match jp (cleanLLMResponse resp) with
  | some d => d
  | none => fallbackExtraction text

/-- The assembled record of `CVParserLLM.parse` (file name and timing
metadata omitted — they do not depend on the extraction). -/
structure LlmRecord where
  name : String
  contact : List (String × String)
  summary : String
  skills : List String
  languages : List String
  certifications : List String
  education : List EduEntry
  experience : List Exp
deriving Repr, DecidableEq

/-- `CVParserLLM.parse`: note the contact mapping is a literal dict with all
four keys always present. -/
def parseLLM (jp : String → Option LlmData) (text resp : String) : LlmRecord :=
  let d := extractWithLLM jp text resp
  ⟨d.name,
   [("email", d.email), ("phone", d.phone), ("location", d.location),
    ("linkedin", d.linkedin)],
   d.summary, d.skills, d.languages, d.certifications, d.education, d.experience⟩

/-! ## Theorems settling the claims -/

/-! ### Helper lemmas about the dedup loop -/

theorem dedupCI_contains_false :
    ∀ (l seen : List (List Char)) (x : List Char), x ∈ dedupCI l seen →
      seen.contains (trimL (lowerL x)) = false := by
  intro l
  induction l with
  | nil => intro seen x hx; simp [dedupCI] at hx
  | cons s rest ih =>
    intro seen x hx
    simp only [dedupCI] at hx
    split at hx
    · exact ih seen x hx
    · rename_i hcond
      simp only [Bool.or_eq_true, not_or, Bool.not_eq_true] at hcond
      rcases List.mem_cons.mp hx with hx | hx
      · subst hx
        exact hcond.1
      · have h2 := ih _ x hx
        rw [List.contains_cons, Bool.or_eq_false_iff] at h2
        exact h2.2

theorem dedupCI_pairwise :
    ∀ (l seen : List (List Char)),
      List.Pairwise (fun a b => trimL (lowerL a) ≠ trimL (lowerL b)) (dedupCI l seen) := by
  intro l
  induction l with
  | nil => intro seen; simp [dedupCI]
  | cons s rest ih =>
    intro seen
    simp only [dedupCI]
    split
    · exact ih seen
    · refine List.Pairwise.cons ?_ (ih _)
      intro b hb
      have hc := dedupCI_contains_false rest _ b hb
      rw [List.contains_cons, Bool.or_eq_false_iff] at hc
      have hne : trimL (lowerL b) ≠ trimL (lowerL s) := by
        intro heq
        have := hc.1
        rw [heq] at this
        simp at this
      exact fun heq => hne heq.symm

theorem dedupCI_sublist :
    ∀ (l seen : List (List Char)), (dedupCI l seen).Sublist l := by
  intro l
  induction l with
  | nil => intro seen; simp [dedupCI]
  | cons s rest ih =>
    intro seen
    simp only [dedupCI]
    split
    · exact (ih seen).cons s
    · exact (ih _).cons₂ s

/-- C2: the skills list is capped at 25, case-insensitively duplicate-free,
and a sublist (hence first-seen order preserving) of the raw collected
skills; the languages list is capped at 10. -/
theorem c2_caps_and_dedup (text : String) :
    (extractSkills text).length ≤ 25 ∧
    List.Pairwise (fun a b : String => lowerL a.data ≠ lowerL b.data) (extractSkills text) ∧
    (extractSkillsL text.data).Sublist (skillsRaw text.data) ∧
    (extractLanguages text).length ≤ 10 := by
  refine ⟨?_, ?_, ?_, ?_⟩
  · simp only [extractSkills, extractSkillsL, List.length_map]
    exact le_trans (List.length_take_le _ _) (le_refl _)
  · simp only [extractSkills]
    rw [List.pairwise_map]
    have hp := dedupCI_pairwise (skillsRaw text.data) []
    have hp2 : List.Pairwise (fun a b => lowerL a ≠ lowerL b)
        (dedupCI (skillsRaw text.data) []) := by
      refine hp.imp ?_
      intro a b hab heq
      exact hab (by rw [heq])
    exact (hp2.sublist (List.take_sublist _ _)).imp (by
      intro a b hab
      simpa using hab)
  · exact (List.take_sublist _ _).trans (dedupCI_sublist _ [])
  · simp only [extractLanguages, extractLanguagesL]
    cases h : langSectG text.data with
    | some g => simp [List.length_take]
    | none => simp

/-- C9, amended: once ten section lines have been counted, the current
(11th) line is still processed — it contributes its skills unless it is a
terminator — and the remaining lines are never examined. -/
theorem c9_skillsLoop_cap (line : List Char) (rest : List (List Char)) (cnt : Nat)
    (acc : List (List Char)) (h10 : 10 ≤ cnt)
    (hhdr : isSkillsHeaderL (trimL line) = false) :
    skillsLoop (line :: rest) true cnt acc =
      if isStopHeaderL (trimL line) then acc else acc ++ skillLineParts (trimL line) := by
  have h11 : cnt + 1 > 10 := by omega
  simp only [skillsLoop, hhdr, Bool.false_eq_true, if_false, Bool.true_and]
  split
  · rfl
  · simp [h11]

/-- Witness for `c9_skillsLoop_cap` at a concrete state. -/
theorem c9_skillsLoop_cap_witness :
    skillsLoop ["abc".data, "zzz".data] true 10 [] = ["abc".data] := by
  rw [c9_skillsLoop_cap "abc".data ["zzz".data] 10 [] (by omega) (by decide)]
  decide

/-- C5: when the (cleaned) LLM response fails to parse as JSON, the
assembled record is the deterministic fallback: empty name, summary and
collections, and contact values equal to the first fallback-regex matches
of the source text (empty when the regexes do not match). -/
theorem c5_llm_fallback (jp : String → Option LlmData) (text resp : String)
    (h : jp (cleanLLMResponse resp) = none) :
    parseLLM jp text resp =
      ⟨"", [("email", fbEmail text.data), ("phone", fbPhone text.data),
            ("location", ""), ("linkedin", "")], "", [], [], [], [], []⟩ ∧
    (∀ m, emailSearch text.data = some m → fbEmail text.data = String.mk m) ∧
    (emailSearch text.data = none → fbEmail text.data = "") ∧
    (reFind phone1RE text.data = none → reFind phone2RE text.data = none →
      fbPhone text.data = "") := by
  refine ⟨?_, ?_, ?_, ?_⟩
  · simp [parseLLM, extractWithLLM, h, fallbackExtraction]
  · intro m hm
    simp [fbEmail, emailSearch] at hm ⊢
    rw [hm]
  · intro hm
    simp [fbEmail, emailSearch] at hm ⊢
    rw [hm]
  · intro h1 h2
    simp [fbPhone, h1, h2]

/-- Witness for `c5_llm_fallback`: a JSON-decode failure on a text whose
e-mail regex matches. -/
theorem c5_llm_fallback_witness :
    (fun _ : String => (none : Option LlmData)) (cleanLLMResponse "not json") = none ∧
    parseLLM (fun _ => none) "a@b.co" "not json" =
      ⟨"", [("email", "a@b.co"), ("phone", ""), ("location", ""), ("linkedin", "")],
       "", [], [], [], [], []⟩ := by
  refine ⟨rfl, ?_⟩
  have h := (c5_llm_fallback (fun _ => none) "a@b.co" "not json" rfl).1
  rw [h]
  decide

/-- The `Contact `-loop returns the cleaned value of the first qualifying
line: lines before it — whether or not they start with `Contact ` — are
passed over exactly when they fail one of the three conditions (prefix,
non-empty cleaned value, at least two words). -/
theorem contactScan_append (pre : List (List Char)) (line : List Char)
    (tl : List (List Char))
    (hpre : ∀ l ∈ pre, ¬(isPfxOf "Contact ".data (trimL l) = true ∧
        trimL (removeAll "Contact".data l) ≠ [] ∧
        2 ≤ (wordsOf (trimL (removeAll "Contact".data l))).length))
    (hpfx : isPfxOf "Contact ".data (trimL line) = true)
    (hne : trimL (removeAll "Contact".data line) ≠ [])
    (hw : 2 ≤ (wordsOf (trimL (removeAll "Contact".data line))).length) :
    contactScan (pre ++ line :: tl) =
      some (trimL (removeAll "Contact".data line)) := by
  induction pre with
  | nil =>
    simp only [List.nil_append, contactScan, hpfx, if_true]
    simp [hne, hw]
  | cons l0 pre ih =>
    have h0 := hpre l0 (List.mem_cons_self l0 pre)
    simp only [List.cons_append, contactScan]
    by_cases hp0 : isPfxOf "Contact ".data (trimL l0) = true
    · rw [if_pos hp0]
      have hcond : ¬((decide (trimL (removeAll "Contact".data l0) ≠ []) &&
          decide ((wordsOf (trimL (removeAll "Contact".data l0))).length ≥ 2)) = true) := by
        intro hc
        simp only [Bool.and_eq_true, decide_eq_true_eq] at hc
        exact h0 ⟨hp0, hc.1, hc.2⟩
      rw [if_neg hcond]
      exact ih (fun l hl => hpre l (List.mem_cons_of_mem l0 hl))
    · rw [if_neg hp0]
      exact ih (fun l hl => hpre l (List.mem_cons_of_mem l0 hl))

/-- C6, amended: for any document in which some line among the first 10
begins (stripped) with `Contact ` and cleans — all `Contact` occurrences
removed, then trimmed — to a non-empty string of at least two words, the
name extractor returns the cleaned value of the first such line, whatever
the other lines contain: the `Contact ` rule runs before, and takes
priority over, the heuristic name scan. -/
theorem c6_contact_rule (pre : List (List Char)) (line : List Char)
    (rest : List (List Char))
    (hlen : pre.length < 10)
    (hpre : ∀ l ∈ pre, ¬(isPfxOf "Contact ".data (trimL l) = true ∧
        trimL (removeAll "Contact".data l) ≠ [] ∧
        2 ≤ (wordsOf (trimL (removeAll "Contact".data l))).length))
    (hpfx : isPfxOf "Contact ".data (trimL line) = true)
    (hne : trimL (removeAll "Contact".data line) ≠ [])
    (hw : 2 ≤ (wordsOf (trimL (removeAll "Contact".data line))).length) :
    extractNameLines (pre ++ line :: rest) = trimL (removeAll "Contact".data line) := by
  have htake : (pre ++ line :: rest).take 10 =
      pre ++ line :: rest.take (9 - pre.length) := by
    rw [List.take_append_eq_append_take, List.take_of_length_le (le_of_lt hlen)]
    have h1 : 10 - pre.length = (9 - pre.length) + 1 := by omega
    rw [h1, List.take_succ_cons]
  have hscan := contactScan_append pre line (rest.take (9 - pre.length))
    hpre hpfx hne hw
  simp only [extractNameLines, htake, hscan]

/-- Witness for `c6_contact_rule`: the Contact line is the second line,
preceded by a line the heuristic scan would accept as a name — the Contact
rule still wins. -/
theorem c6_contact_rule_witness :
    extractNameLines ["Jane Marie Doe".data, "Contact John Michael Smith".data,
      "Senior Engineer".data] = "John Michael Smith".data := by
  rw [show (["Jane Marie Doe".data, "Contact John Michael Smith".data,
      "Senior Engineer".data] : List (List Char)) =
      ["Jane Marie Doe".data] ++ "Contact John Michael Smith".data ::
        ["Senior Engineer".data] from rfl]
  rw [c6_contact_rule ["Jane Marie Doe".data] "Contact John Michael Smith".data
    ["Senior Engineer".data] (by decide) (by decide) (by decide) (by decide) (by decide)]
  decide

/-- C8, amended: in `CVParser.extract_contact_info` a key is present in the
contact mapping exactly when the corresponding pattern search succeeded,
while the LLM-backed `parse` always emits all four keys. -/
theorem c8_contact_key_presence (text : String) :
    ((extractContactInfo text).lookup "email").isSome = (emailSearch text.data).isSome ∧
    ((extractContactInfo text).lookup "phone").isSome = (phoneSearch text.data).isSome ∧
    ((extractContactInfo text).lookup "linkedin").isSome = (linkedinSearch text.data).isSome ∧
    ((extractContactInfo text).lookup "location").isSome =
      (locLineScan ((splitBy (fun c => c = '\n') text.data).take 20)).isSome ∧
    (∀ (jp : String → Option LlmData) (t r : String),
      (parseLLM jp t r).contact.map Prod.fst = ["email", "phone", "location", "linkedin"]) := by
  have hb1 : (("phone" : String) == "email") = false := by decide
  have hb2 : (("linkedin" : String) == "email") = false := by decide
  have hb3 : (("linkedin" : String) == "phone") = false := by decide
  have hb4 : (("location" : String) == "email") = false := by decide
  have hb5 : (("location" : String) == "phone") = false := by decide
  have hb6 : (("location" : String) == "linkedin") = false := by decide
  refine ⟨?_, ?_, ?_, ?_, fun jp t r => rfl⟩ <;>
  · simp only [extractContactInfo]
    rcases emailSearch text.data with _ | m1 <;>
      rcases phoneSearch text.data with _ | m2 <;>
        rcases linkedinSearch text.data with _ | m3 <;>
          rcases locLineScan ((splitBy (fun c => c = '\n') text.data).take 20) with _ | m4 <;>
            simp [List.lookup, hb1, hb2, hb3, hb4, hb5, hb6]

/-- Witness for `c8_contact_key_presence` (note the statement is
hypothesis-free; this instantiates it at a concrete text). -/
theorem c8_contact_key_presence_witness :
    ((extractContactInfo "a@b.co").lookup "email").isSome =
      (emailSearch "a@b.co".data).isSome := by
  exact (c8_contact_key_presence "a@b.co").1

/-- The shared invariant of the `CVParser.extract_experience` scan: every
entry ever appended has a non-empty company, a non-empty position and an
empty responsibilities list (both append sites are guarded on company and
position, and `last_company` only ever holds a company that passed the
guard). -/
theorem expLoop_entries (lines : List (List Char)) :
    ∀ (fuel i : Nat) (lastCo : Option (List Char)) (acc : List Exp),
      (∀ e ∈ acc, e.company ≠ "" ∧ e.position ≠ "" ∧ e.responsibilities = []) →
      (∀ c, lastCo = some c → c ≠ []) →
      ∀ e ∈ expLoop lines fuel i lastCo acc,
        e.company ≠ "" ∧ e.position ≠ "" ∧ e.responsibilities = [] := by
  intro fuel
  induction fuel with
  | zero =>
    intro i lastCo acc hacc hlc e he
    simp only [expLoop] at he
    exact hacc e he
  | succ f ih =>
    intro i lastCo acc hacc hlc e he
    simp only [expLoop] at he
    by_cases hlen : i < lines.length
    · rw [if_pos hlen] at he
      split at he
      · exact ih _ _ _ hacc hlc e he
      · split at he
        · exact ih _ _ _ hacc hlc e he
        · split at he
          · -- company branch
            split at he
            · rename_i hguard
              simp only [Bool.and_eq_true, decide_eq_true_eq] at hguard
              refine ih _ _ _ ?_ ?_ e he
              · intro e2 he2
                rcases List.mem_append.mp he2 with h2 | h2
                · exact hacc e2 h2
                · rcases List.mem_singleton.mp h2 with rfl
                  refine ⟨?_, ?_, rfl⟩
                  · simpa [String.ext_iff] using hguard.1
                  · simpa [String.ext_iff] using hguard.2
              · intro c hc
                cases hc
                exact (by simpa using hguard.1)
            · exact ih _ _ _ hacc hlc e he
          · split at he
            · -- orphan branch
              split at he
              · rename_i lc
                split at he
                · rename_i hper
                  split at he
                  · rename_i hcp
                    refine ih _ _ _ ?_ hlc e he
                    intro e2 he2
                    rcases List.mem_append.mp he2 with h2 | h2
                    · exact hacc e2 h2
                    · rcases List.mem_singleton.mp h2 with rfl
                      refine ⟨?_, ?_, rfl⟩
                      · simpa [String.ext_iff] using hlc lc rfl
                      · simpa [String.ext_iff] using hcp
                  · exact ih _ _ _ hacc hlc e he
                · exact ih _ _ _ hacc hlc e he
              · exact ih _ _ _ hacc hlc e he
            · exact ih _ _ _ hacc hlc e he
    · rw [if_neg hlen] at he
      exact hacc e he

/-- C1, amended: every entry emitted by the whole-document strategy of
`CVParser.extract_experience` has a non-empty company and a non-empty
position (the explicit-section strategy of `cv_parser_docling.py` violates
this — see the counterexample). -/
theorem c1_whole_doc_completeness (text : String) :
    ∀ e ∈ extractExperience text, e.company ≠ "" ∧ e.position ≠ "" := by
  intro e he
  have h := expLoop_entries _ _ _ _ _
    (fun e2 he2 => absurd he2 (List.not_mem_nil e2))
    (fun c hc => by cases hc) e he
  exact ⟨h.1, h.2.1⟩

/-- Witness for `c1_whole_doc_completeness` at the Scenario 3 text. -/
theorem c1_whole_doc_completeness_witness :
    (⟨"Coca-Cola Icecek", "Finance Manager",
      "March 2019 - Present (5 years 2 months)", "", []⟩ : Exp) ∈
      extractExperience
        "Coca-Cola Icecek\nFinance Manager\nMarch 2019 - Present (5 years 2 months)" ∧
    (("Coca-Cola Icecek" : String) ≠ "" ∧ ("Finance Manager" : String) ≠ "") := by
  refine ⟨by decide, ?_⟩
  exact c1_whole_doc_completeness
    "Coca-Cola Icecek\nFinance Manager\nMarch 2019 - Present (5 years 2 months)"
    ⟨"Coca-Cola Icecek", "Finance Manager",
      "March 2019 - Present (5 years 2 months)", "", []⟩ (by decide)

/-- C10: the whole-document strategy of `CVParser.extract_experience` never
populates `responsibilities` — both append sites write the literal empty
list. -/
theorem c10_responsibilities_empty (text : String) :
    ∀ e ∈ extractExperience text, e.responsibilities = [] := by
  intro e he
  exact (expLoop_entries _ _ _ _ _
    (fun e2 he2 => absurd he2 (List.not_mem_nil e2))
    (fun c hc => by cases hc) e he).2.2

/-- Witness for `c10_responsibilities_empty` at a concrete document with an
orphan position, exercising both append sites. -/
theorem c10_responsibilities_empty_witness :
    (⟨"Coca-Cola Icecek", "Senior Analyst", "June 2021 - Present", "", []⟩ : Exp) ∈
      extractExperience
        "Coca-Cola Icecek\nFinance Manager\nMarch 2019 - Present\n\nSenior Analyst\nJune 2021 - Present\n" ∧
    (⟨"Coca-Cola Icecek", "Senior Analyst", "June 2021 - Present", "", []⟩ : Exp).responsibilities
      = [] := by
  refine ⟨by decide, ?_⟩
  exact c10_responsibilities_empty
    "Coca-Cola Icecek\nFinance Manager\nMarch 2019 - Present\n\nSenior Analyst\nJune 2021 - Present\n"
    ⟨"Coca-Cola Icecek", "Senior Analyst", "June 2021 - Present", "", []⟩ (by decide)

/-- Flushing preserves the education invariant: all entries after the first
have a degree, because an in-progress entry is only flushed onto a
non-empty accumulator when it was itself started by a degree line. -/
theorem eduFlush_tail_degree (cur : EduEntry) (acc : List EduEntry)
    (h1 : ∀ e ∈ acc.drop 1, e.degree.isSome = true)
    (h2 : acc ≠ [] → cur.degree.isSome = true) :
    ∀ e ∈ (eduFlush cur acc).drop 1, e.degree.isSome = true := by
  intro e he
  simp only [eduFlush] at he
  split at he
  · exact h1 e he
  · rcases acc with _ | ⟨a, t⟩
    · simp at he
    · simp only [List.cons_append, List.drop_succ_cons, List.drop_zero] at he
      rcases List.mem_append.mp he with h | h
      · exact h1 e (by simpa using h)
      · rcases List.mem_singleton.mp h with rfl
        exact h2 (by simp)

/-- The education walk keeps the invariant: every accumulated entry beyond
the first has a degree, and once something has been flushed the in-progress
entry has a degree (it was started by a degree line). -/
theorem eduLoop_tail_degree :
    ∀ (ls : List (List Char)) (cur : EduEntry) (acc : List EduEntry),
      (∀ e ∈ acc.drop 1, e.degree.isSome = true) →
      (acc ≠ [] → cur.degree.isSome = true) →
      ∀ e ∈ (eduLoop ls cur acc).drop 1, e.degree.isSome = true := by
  intro ls
  induction ls with
  | nil =>
    intro cur acc h1 h2 e he
    simp only [eduLoop] at he
    exact eduFlush_tail_degree cur acc h1 h2 e he
  | cons l rest ih =>
    intro cur acc h1 h2 e he
    simp only [eduLoop] at he
    split at he
    · refine ih _ _ (eduFlush_tail_degree cur acc h1 h2) (fun _ => by simp) e he
    · split at he
      · split at he
        · exact ih _ _ h1 (fun ha => by simpa using h2 ha) e he
        · exact ih _ _ h1 h2 e he
      · split at he
        · split at he
          · exact ih _ _ h1 (fun ha => by simpa using h2 ha) e he
          · split at he
            · exact ih _ _ h1 (fun ha => by simpa using h2 ha) e he
            · exact ih _ _ h1 h2 e he
        · exact ih _ _ h1 h2 e he

/-- C7, amended: at most the first emitted education entry can lack the
`degree` field — every entry after the first has one.  (The first entry can
lack it: pre-degree lines accumulate into an entry that is flushed, not
dropped; see the counterexample.) -/
theorem c7_tail_has_degree (text : String) :
    ∀ e ∈ (extractEducation text).drop 1, e.degree.isSome = true := by
  intro e he
  simp only [extractEducation, extractEducationL] at he
  rcases h : eduSectG text.data with _ | g
  · rw [h] at he; simp at he
  · rw [h] at he
    exact eduLoop_tail_degree _ _ _ (by simp) (fun hne => absurd rfl hne) e he

/-- Witness for `c7_tail_has_degree`: a section with two degree lines. -/
theorem c7_tail_has_degree_witness :
    (⟨some "Master of Arts", none, none, none⟩ : EduEntry) ∈
      (extractEducation
        "Education\nBachelor of Science\nIstanbul University\nMaster of Arts\n").drop 1 ∧
    (Option.some "Master of Arts").isSome = true := by
  refine ⟨by decide, ?_⟩
  exact c7_tail_has_degree
    "Education\nBachelor of Science\nIstanbul University\nMaster of Arts\n"
    ⟨some "Master of Arts", none, none, none⟩ (by decide)

/-- The dash normalisation either leaves its input unchanged or introduces a
space (each replacement writes the three characters of a spaced dash). -/
theorem dashSubF_eq_or_space :
    ∀ (f : Nat) (cs : List Char), cs.length ≤ f →
      dashSubF f cs = cs ∨ ' ' ∈ dashSubF f cs := by
  intro f
  induction f with
  | zero =>
    intro cs h
    left
    rcases cs with _ | ⟨c, cs⟩
    · rfl
    · simp at h
  | succ f ih =>
    intro cs h
    rcases cs with _ | ⟨c, cs⟩
    · left; rfl
    · simp only [dashSubF]
      split
      · right; simp
      · rcases ih cs (by simp at h; omega) with heq | hsp
        · left; rw [heq]
        · right; exact List.mem_cons_of_mem _ hsp

theorem dashSub_eq_or_space (cs : List Char) :
    dashSub cs = cs ∨ ' ' ∈ dashSub cs :=
  dashSubF_eq_or_space cs.length cs (le_refl _)

/-- Entries that survive the per-entry cleanup of the docling languages
strategy never equal a programming-language token case-insensitively: the
token filter runs before the dash normalisation, and the normalisation can
only change a string by introducing spaces, which no token contains. -/
theorem dlCleanLang_no_prog :
    ∀ (raws : List (List Char)) (x : List Char), x ∈ dlCleanLang raws →
      ∀ p ∈ dlProgLangs, lowerL x ≠ p.data := by
  intro raws
  induction raws with
  | nil => intro x hx; simp [dlCleanLang] at hx
  | cons r rest ih =>
    intro x hx p hp heq
    simp only [dlCleanLang] at hx
    split at hx
    · exact ih x hx p hp heq
    · split at hx
      · exact ih x hx p hp heq
      · split at hx
        · exact ih x hx p hp heq
        · split at hx
          · exact ih x hx p hp heq
          · rename_i hprog _ _
            rcases List.mem_cons.mp hx with rfl | hx
            · rcases dashSub_eq_or_space (trimL r) with hdeq | hsp
              · rw [hdeq] at heq
                have hany : dlProgLangs.any
                    (fun q => q.data == lowerL (trimL r)) = true :=
                  List.any_eq_true.mpr ⟨p, hp, by rw [heq]; exact beq_self_eq_true _⟩
                exact absurd hany (by simpa using hprog)
              · have hsp2 : ' ' ∈ lowerL (dashSub (trimL r)) :=
                  List.mem_map.mpr ⟨' ', hsp, rfl⟩
                rw [heq] at hsp2
                have hnosp : ∀ q ∈ dlProgLangs, ' ' ∉ q.data := by decide
                exact hnosp p hp hsp2
            · exact ih x hx p hp heq

/-- Membership in the docling languages result always goes through the
cleanup of one accepted block. -/
theorem dlLangScan_no_prog :
    ∀ (ts : List (List Char)) (y : List Char), y ∈ dlLangScan ts →
      ∀ p ∈ dlProgLangs, lowerL y ≠ p.data := by
  intro ts
  induction ts with
  | nil => intro y hy; simp [dlLangScan] at hy
  | cons t rest ih =>
    intro y hy p hp
    simp only [dlLangScan] at hy
    split at hy
    · rename_i r hr
      simp only [dlLangFrom] at hr
      split at hr
      · split at hr
        · rename_i hne
          injection hr with hr
          subst hr
          exact dlCleanLang_no_prog _ y
            (List.mem_of_mem_take (by exact hy)) p hp
        · exact absurd hr (by simp)
      · exact absurd hr (by simp)
    · exact ih y hy p hp

/-- C3, amended: the keyword-gated strategy of
`CVParserDocling.extract_languages` never returns an entry that equals
(case-insensitively) one of the fixed programming-language tokens; the
positional strategy of `CVParser.extract_languages` performs no such
exclusion (see the counterexample, which also settles Scenario 5). -/
theorem c3_docling_excludes_tokens (text : String) :
    ∀ x ∈ dlExtractLanguages text, ∀ p ∈ dlProgLangs, lowerL x.data ≠ p.data := by
  intro x hx p hp
  simp only [dlExtractLanguages] at hx
  rcases List.mem_map.mp hx with ⟨y, hy, rfl⟩
  exact dlLangScan_no_prog _ y hy p hp

/-- Witness for `c3_docling_excludes_tokens` at a concrete accepted block. -/
theorem c3_docling_excludes_tokens_witness :
    ("English - Native" : String) ∈
      dlExtractLanguages "LANGUAGES\nEnglish - Native\nTurkish - Fluent\n" ∧
    ∀ p ∈ dlProgLangs, lowerL ("English - Native" : String).data ≠ p.data := by
  refine ⟨by decide, ?_⟩
  intro p hp
  exact c3_docling_excludes_tokens "LANGUAGES\nEnglish - Native\nTurkish - Fluent\n"
    "English - Native" (by decide) p hp

theorem dropWhileP_decomp (p : Char → Bool) :
    ∀ l : List Char, ∃ w, l = w ++ dropWhileP p l ∧ ∀ c ∈ w, p c = true := by
  intro l
  induction l with
  | nil => exact ⟨[], rfl, by simp⟩
  | cons c l ih =>
    by_cases hc : p c = true
    · rcases ih with ⟨w, hw, hall⟩
      refine ⟨c :: w, ?_, ?_⟩
      · simp only [dropWhileP, hc, if_true, List.cons_append]
        rw [← hw]
      · intro d hd
        rcases List.mem_cons.mp hd with rfl | hd
        · exact hc
        · exact hall d hd
    · refine ⟨[], ?_, by simp⟩
      simp only [dropWhileP, hc]
      simp [Bool.not_eq_true] at hc
      simp [hc]

theorem dropCI_inv :
    ∀ (p cs r : List Char), dropCI p cs = some r →
      ∃ q, cs = q ++ r ∧ lowerL q = lowerL p := by
  intro p
  induction p with
  | nil =>
    intro cs r h
    simp only [dropCI, Option.some.injEq] at h
    exact ⟨[], by simp [h], rfl⟩
  | cons a p ih =>
    intro cs r h
    rcases cs with _ | ⟨c, cs⟩
    · simp [dropCI] at h
    · simp only [dropCI] at h
      split at h
      · rename_i hchar
        rcases ih cs r h with ⟨q, hq, hl⟩
        refine ⟨c :: q, by simp [hq], ?_⟩
        simp only [lowerL, List.map_cons] at hl ⊢
        rw [hl, hchar]
      · exact absurd h (by simp)

theorem dropWS1_inv (cs r : List Char) (h : dropWS1 cs = some r) :
    ∃ w, cs = w ++ r ∧ w ≠ [] ∧ ∀ c ∈ w, chWS c = true := by
  rcases cs with _ | ⟨c, cs⟩
  · simp [dropWS1] at h
  · simp only [dropWS1] at h
    split at h
    · rename_i hws
      injection h with h
      rcases dropWhileP_decomp chWS cs with ⟨w, hw, hall⟩
      refine ⟨c :: w, ?_, by simp, ?_⟩
      · rw [← h, List.cons_append, ← hw]
      · intro d hd
        rcases List.mem_cons.mp hd with rfl | hd
        · exact hws
        · exact hall d hd
    · exact absurd h (by simp)

theorem nameTail_inv (n cs : List Char) (h : nameTail n cs = true) :
    ∃ q r, cs = q ++ r ∧ lowerL q = lowerL n ∧ (r = [] ∨ r = [':']) := by
  unfold nameTail at h
  split at h
  · rename_i r0 hr0
    rcases dropCI_inv n cs r0 hr0 with ⟨q, hq, hl⟩
    refine ⟨q, r0, hq, hl, ?_⟩
    rw [Bool.or_eq_true] at h
    rcases h with h1 | h1
    · exact Or.inl (by simpa using h1)
    · exact Or.inr (by simpa using h1)
  · exact absurd h (by simp)

/-- If a string ci-equals a section name with no trailing colon, removing an
optional trailing colon from `q ++ r` (with `r` empty or a lone colon)
recovers `q`. -/
theorem dropTrailColon_append (q r n : List Char) (hl : lowerL q = lowerL n)
    (hlast : (lowerL n).getLast? ≠ some ':') (hr : r = [] ∨ r = [':']) :
    dropTrailColon (q ++ r) = q := by
  rcases hr with rfl | rfl
  · simp only [List.append_nil]
    unfold dropTrailColon
    rw [if_neg]
    intro hend
    unfold endsWithL at hend
    rcases hq : q.reverse with _ | ⟨c, t⟩
    · rw [hq] at hend; simp [isPfxOf] at hend
    · rw [hq] at hend
      simp only [List.reverse_singleton, isPfxOf, Bool.and_eq_true] at hend
      have hc : c = ':' := by
        have := hend.1
        simp only [decide_eq_true_eq] at this
        exact this.symm
      have hqe : q = t.reverse ++ [':'] := by
        have := congrArg List.reverse hq
        simpa [hc] using this
      rw [hqe] at hl
      have : (lowerL n).getLast? = some ':' := by
        rw [← hl]
        simp only [lowerL, List.map_append, List.map_cons, List.map_nil]
        rw [List.getLast?_concat]
        rfl
      exact absurd this hlast
  · unfold dropTrailColon
    rw [if_pos, List.dropLast_concat]
    unfold endsWithL
    simp [List.reverse_append, isPfxOf]

/-- C4, amended: the Skills extractor's header and terminator tests are
whole-line anchored — a line passes `^(Top\s+)?Skills:?$` only if it is,
character for character, an optional case-insensitive `top` plus whitespace,
then the section name case-insensitively, then an optional colon, and
similarly a terminator line is one of the four section names with an
optional trailing colon.  The Languages/Certifications/Education extractors
use unanchored searches instead (see the counterexample). -/
theorem c4_skills_headers_anchored (l : List Char) :
    (isSkillsHeaderL l = true →
      lowerL (dropTrailColon l) = "skills".data ∨
      ∃ q1 w q2 r, l = q1 ++ w ++ q2 ++ r ∧ lowerL q1 = "top".data ∧ w ≠ [] ∧
        (∀ c ∈ w, chWS c = true) ∧ lowerL q2 = "skills".data ∧
        (r = [] ∨ r = [':'])) ∧
    (isStopHeaderL l = true →
      lowerL (dropTrailColon l) = "languages".data ∨
      lowerL (dropTrailColon l) = "certifications".data ∨
      lowerL (dropTrailColon l) = "experience".data ∨
      lowerL (dropTrailColon l) = "education".data) := by
  have hlow : ∀ (n : List Char), lowerL n = n →
      ∀ q r, lowerL q = lowerL n → (r = [] ∨ r = [':']) →
        (lowerL n).getLast? ≠ some ':' →
        lowerL (dropTrailColon (q ++ r)) = n := by
    intro n hn q r hql hr hlast
    rw [dropTrailColon_append q r n hql hlast hr, hql, hn]
  constructor
  · intro h
    unfold isSkillsHeaderL at h
    rw [Bool.or_eq_true] at h
    rcases h with h | h
    · right
      split at h
      · rename_i r1 hr1
        split at h
        · rename_i r2 hr2
          rcases dropCI_inv _ _ _ hr1 with ⟨q1, hq1, hl1⟩
          rcases dropWS1_inv _ _ hr2 with ⟨w, hw, hwne, hwall⟩
          rcases nameTail_inv _ _ h with ⟨q2, r, hq2, hl2, hrr⟩
          refine ⟨q1, w, q2, r, ?_, ?_, hwne, hwall, ?_, hrr⟩
          · rw [hq1, hw, hq2]; simp [List.append_assoc]
          · rw [hl1]; decide
          · rw [hl2]; decide
        · exact absurd h (by simp)
      · exact absurd h (by simp)
    · left
      rcases nameTail_inv _ _ h with ⟨q, r, rfl, hl, hrr⟩
      exact hlow "skills".data (by decide) q r hl hrr (by decide)
  · intro h
    simp only [isStopHeaderL, Bool.or_eq_true] at h
    rcases h with ((h | h) | h) | h
    · rcases nameTail_inv _ _ h with ⟨q, r, rfl, hl, hrr⟩
      exact Or.inl (hlow "languages".data (by decide) q r hl hrr (by decide))
    · rcases nameTail_inv _ _ h with ⟨q, r, rfl, hl, hrr⟩
      exact Or.inr (Or.inl (hlow "certifications".data (by decide) q r hl hrr (by decide)))
    · rcases nameTail_inv _ _ h with ⟨q, r, rfl, hl, hrr⟩
      exact Or.inr (Or.inr (Or.inl
        (hlow "experience".data (by decide) q r hl hrr (by decide))))
    · rcases nameTail_inv _ _ h with ⟨q, r, rfl, hl, hrr⟩
      exact Or.inr (Or.inr (Or.inr
        (hlow "education".data (by decide) q r hl hrr (by decide))))

/-- Witness for `c4_skills_headers_anchored` at concrete header lines. -/
theorem c4_skills_headers_anchored_witness :
    isSkillsHeaderL "Top Skills:".data = true ∧
    (lowerL (dropTrailColon "Top Skills:".data) = "skills".data ∨
      ∃ q1 w q2 r, "Top Skills:".data = q1 ++ w ++ q2 ++ r ∧
        lowerL q1 = "top".data ∧ w ≠ [] ∧ (∀ c ∈ w, chWS c = true) ∧
        lowerL q2 = "skills".data ∧ (r = [] ∨ r = [':'])) ∧
    isStopHeaderL "Languages".data = true ∧
    (lowerL (dropTrailColon "Languages".data) = "languages".data ∨
      lowerL (dropTrailColon "Languages".data) = "certifications".data ∨
      lowerL (dropTrailColon "Languages".data) = "experience".data ∨
      lowerL (dropTrailColon "Languages".data) = "education".data) :=
  ⟨by decide, (c4_skills_headers_anchored "Top Skills:".data).1 (by decide),
   by decide, (c4_skills_headers_anchored "Languages".data).2 (by decide)⟩

/-- C1, counterexample: the explicit-section strategy of
`CVParserDocling.extract_experience` emits an entry whose `company` is the
empty string (a position line starts an entry with `company = ''`, and the
entry is flushed at section end without any completeness check), refuting
the claim that every emitted entry of both strategies has a non-empty
company. -/
theorem c1_docling_empty_company :
    dlExtractExperience "EXPERIENCE\nSoftware Engineer\nJanuary 2020 - Present\n" =
      .ok [⟨some "Software Engineer", some "", some "January 2020 - Present",
            some "", some []⟩] := by
  rfl

/-- C3, counterexample (Scenario 5): on
`"LANGUAGES\nEnglish - Native, Java, Turkish - Fluent\n"` the positional
strategy of `CVParser.extract_languages` performs no programming-language
exclusion and returns the `"Java"` entry, and the keyword-gated strategy of
`CVParserDocling.extract_languages` rejects the whole block (the `java`
substring trips its programming gate) and returns `[]` — not the claimed
`["English - Native", "Turkish - Fluent"]`. -/
theorem c3_languages_counterexample :
    extractLanguages "LANGUAGES\nEnglish - Native, Java, Turkish - Fluent\n" =
      ["English - Native", "Java", "Turkish - Fluent"] ∧
    dlExtractLanguages "LANGUAGES\nEnglish - Native, Java, Turkish - Fluent\n" = [] := by
  decide

/-- C4, counterexample: no line of this text equals (after trimming and
removing an optional trailing colon, case-insensitively) the section name
`Languages`, yet `CVParser.extract_languages` starts a section at the prose
line `"I am fluent in three languages"` because its search pattern
`Languages?[:\n]+...` is not anchored to a whole line. -/
theorem c4_languages_not_anchored :
    extractLanguages "I am fluent in three languages\nEnglish, French\n" =
      ["English", "French"] ∧
    ((splitBy (fun c => c = '\n')
        "I am fluent in three languages\nEnglish, French\n".data).all
      (fun l => !(lowerL (dropTrailColon (trimL l)) == lowerL "languages".data))) = true := by
  decide

/-- C6, counterexample: for the line `"Contact John Contactson Smith"` the
remainder after the leading `"Contact "` is `"John Contactson Smith"`, but
the extractor removes every occurrence of the substring `Contact`
(Python `str.replace`) and returns `"John son Smith"` instead. -/
theorem c6_replace_all_counterexample :
    extractName "Contact John Contactson Smith\nSenior Engineer" = "John son Smith" ∧
    ("John son Smith" : String) ≠ "John Contactson Smith" := by
  decide

/-- C7, counterexample: an Education section with no degree-keyword line
produces an entry with no `degree` field — the candidate is emitted, not
dropped. -/
theorem c7_degreeless_entry :
    extractEducation "Education\nIstanbul University\n2004\n" =
      [⟨none, some "2004", some "Istanbul University", none⟩] := by
  decide

/-- C8, counterexample: with a failing JSON parse and a text containing no
contact data, the LLM-backed record's contact mapping still contains all
four keys, each bound to the empty string — `email` is present with a
placeholder empty value rather than absent. -/
theorem c8_llm_contact_counterexample :
    (parseLLM (fun _ => none) "hello" "x").contact =
      [("email", ""), ("phone", ""), ("location", ""), ("linkedin", "")] ∧
    (parseLLM (fun _ => none) "hello" "x").contact.lookup "email" = some "" := by
  decide

/-- C9, counterexample: the count check runs after a section line is
processed, so the 11th content line of the Skills section still contributes
(`s11` below); only lines from the 12th on are ignored.  The claim that no
line beyond the 10th contributes is refuted by `s11` in the result. -/
theorem c9_eleventh_line_contributes :
    extractSkills "Skills\ns01\ns02\ns03\ns04\ns05\ns06\ns07\ns08\ns09\ns10\ns11\ns12" =
      ["s01", "s02", "s03", "s04", "s05", "s06", "s07", "s08", "s09", "s10", "s11"] ∧
    ("s11" : String) ∈
      extractSkills "Skills\ns01\ns02\ns03\ns04\ns05\ns06\ns07\ns08\ns09\ns10\ns11\ns12" := by
  decide

end CvExtract
